import Mathlib

/-!
Verification of the cross-chain examples repository's two core components:

* the transaction lifecycle monitor (`monitorTransaction` in
  `nodejs/src/crossChainClient.ts`), a bounded-retry status poller with
  terminal-state classification; and
* the streaming route-discovery consumer (`startStreaming` in
  `nextjs-streaming/src/components/StreamingQuote.tsx`), an incremental
  SSE line parser with carry-over buffering.

Both are embedded shallowly: the remote status fetch and the JSON parser
are external collaborators and appear as explicit function parameters;
everything else is translated from the source.
-/

/-! ## Status data model (schemas.ts, `CrossChainStatusResponseSchema`) -/

/-- The closed enumerated set of transfer statuses
(`status: z.enum([...])` in schemas.ts). -/
inductive Status where
  | origin_tx_succeeded
  | origin_tx_confirmed
  | origin_tx_reverted
  | bridge_pending
  | bridge_delayed
  | bridge_filled
  | bridge_failed
  | refund_pending
  | refund_succeeded
  | refund_failed
  | destination_tx_pending
  | destination_tx_confirmed
  | destination_tx_reverted
  | destination_tx_succeeded
  | destination_tx_failed
  | not_found
  | unknown
  deriving DecidableEq, Repr

/-- All seventeen members of the closed status enumeration, in schema order. -/
def statusList : List Status :=
  [.origin_tx_succeeded, .origin_tx_confirmed, .origin_tx_reverted,
   .bridge_pending, .bridge_delayed, .bridge_filled, .bridge_failed,
   .refund_pending, .refund_succeeded, .refund_failed,
   .destination_tx_pending, .destination_tx_confirmed,
   .destination_tx_reverted, .destination_tx_succeeded,
   .destination_tx_failed, .not_found, .unknown]

/-- One discovered transaction leg (`TransactionInfoSchema`). -/
structure TransactionInfo where
  chainId : Int
  chain : String
  txHash : String
  timestamp : Int
  deriving DecidableEq, Repr

/-- The sub-status refinement (`subStatus: z.enum([...])`). -/
inductive SubStatus where
  | insufficient_allowance
  | insufficient_balance
  | failed_simulation
  | expired
  | internal
  | unknown
  deriving DecidableEq, Repr

/-- A validated status response (`CrossChainStatusResponseSchema`). -/
structure StatusResponse where
  status : Status
  subStatus : Option SubStatus := none
  bridge : Option String := none
  transactions : List TransactionInfo := []
  zid : String := ""
  deriving DecidableEq, Repr

/-! ## Transaction monitor (`monitorTransaction`) -/

/-- The `finalStates` array from `monitorTransaction`. -/
def finalStates : List Status :=
  [.destination_tx_succeeded, .destination_tx_failed,
   .destination_tx_reverted, .bridge_failed, .bridge_filled,
   .refund_succeeded, .refund_failed, .origin_tx_reverted]

/-- `finalStates.includes(status.status)`. -/
def isFinalState (s : Status) : Bool := finalStates.contains s

/-- How one run of `monitorTransaction` ends: return of a terminal status,
rethrow of the last attempt's fetch error, or the monitoring-timeout throw
carrying the attempt budget. -/
inductive MonitorOutcome (ε : Type) where
  | success (s : StatusResponse)
  | fetchError (e : ε)
  | timeout (attempts : Nat)
  deriving DecidableEq

/-- Observable trace of one `monitorTransaction` run: its outcome, how many
`getStatus` calls it made, how many inter-attempt sleeps it performed, and
the statuses passed to `onUpdate` in order. -/
structure MonitorResult (ε : Type) where
  outcome : MonitorOutcome ε
  fetches : Nat
  sleeps : Nat
  updates : List StatusResponse
  deriving DecidableEq

/-- The `for (let attempt = 0; attempt < maxAttempts; attempt++)` loop of
`monitorTransaction`, entered at iteration `attempt`.  `fetch i` is the
result of `this.getStatus(request)` on the `i`-th iteration (`Except.error`
models a throw from the fetch).  On success `onUpdate` fires (recorded in
`updates`); a terminal status returns immediately; a non-final iteration is
followed by one sleep; a fetch error on the last iteration is rethrown,
any earlier fetch error is swallowed after a sleep; exhausting the loop
throws the timeout error carrying `maxAttempts`. -/
def monitorLoop {ε : Type} (fetch : Nat → Except ε StatusResponse)
    (maxAttempts attempt : Nat) : MonitorResult ε :=
  if _h : attempt < maxAttempts then
    match fetch attempt with
    | .ok status =>
      if isFinalState status.status then
        ⟨.success status, 1, 0, [status]⟩
      else if attempt < maxAttempts - 1 then
        let r := monitorLoop fetch maxAttempts (attempt + 1)
        ⟨r.outcome, r.fetches + 1, r.sleeps + 1, status :: r.updates⟩
      else
        let r := monitorLoop fetch maxAttempts (attempt + 1)
        ⟨r.outcome, r.fetches + 1, r.sleeps, status :: r.updates⟩
    | .error e =>
      if attempt = maxAttempts - 1 then
        ⟨.fetchError e, 1, 0, []⟩
      else
        let r := monitorLoop fetch maxAttempts (attempt + 1)
        ⟨r.outcome, r.fetches + 1, r.sleeps + 1, r.updates⟩
  else
    ⟨.timeout maxAttempts, 0, 0, []⟩
  termination_by maxAttempts - attempt
  decreasing_by all_goals omega

/-- One full run of `monitorTransaction` with attempt budget `maxAttempts`. -/
def monitorRun {ε : Type} (fetch : Nat → Except ε StatusResponse)
    (maxAttempts : Nat) : MonitorResult ε :=
  monitorLoop fetch maxAttempts 0

/-- The statuses of the successful fetches among attempts `a, a+1, …, a+n-1`,
in attempt order: exactly the arguments passed to `onUpdate`. -/
def fetchedOk {ε : Type} (fetch : Nat → Except ε StatusResponse)
    (a n : Nat) : List StatusResponse :=
  (List.range' a n).filterMap fun i => (fetch i).toOption

/-! ## JS value model for the stream consumer (StreamingQuote.tsx)

`JSON.parse` is a JS builtin, so the parsed payload is modelled as a JS
value tree and the parse itself as an explicit function parameter.
`undefined` models JS `undefined` (missing properties). -/

inductive Json where
  | undefined
  | null
  | bool (b : Bool)
  | num (n : Int)
  | str (s : String)
  | arr (xs : List Json)
  | obj (fields : List (String × Json))

/-- JS property access `v[k]`: throws a TypeError on `null`/`undefined`,
yields the field (or `undefined`) on objects, `undefined` on other
primitives. -/
def jsGet : Json → String → Except Unit Json
  | .undefined, _ => .error ()
  | .null, _ => .error ()
  | .obj fields, k => .ok ((fields.lookup k).getD .undefined)
  | _, _ => .ok .undefined

/-- The JS `in` operator `k in v`: key membership on objects, index/length
membership on arrays, a TypeError on primitives and `null`/`undefined`. -/
def jsIn (k : String) : Json → Except Unit Bool
  | .obj fields => .ok (fields.any fun p => p.1 == k)
  | .arr xs =>
    .ok (k == "length" || (List.range xs.length).any fun i => toString i == k)
  | _ => .error ()

/-- JS truthiness. -/
def jsTruthy : Json → Bool
  | .undefined => false
  | .null => false
  | .bool b => b
  | .num n => n != 0
  | .str s => s ≠ ""
  | .arr _ => true
  | .obj _ => true

/-- JS strict equality against a string literal (`v === "lit"`). -/
def jsEqStr : Json → String → Bool
  | .str s, t => s == t
  | _, _ => false

/-- Property list contributed by a spread `{...v}`: an object's fields, an
array's or string's index properties, nothing for other primitives. -/
def spreadFields : Json → List (String × Json)
  | .obj fields => fields
  | .arr xs => xs.enum.map fun p => (toString p.1, p.2)
  | .str s => s.data.enum.map fun p => (toString p.1, Json.str (String.mk [p.2]))
  | _ => []

/-- The object literal `{...o, k: v}` restricted to its effect on a field
list: an existing key keeps its position and is overwritten, a new key is
appended. -/
def jset (o : List (String × Json)) (k : String) (v : Json) :
    List (String × Json) :=
  if o.any (fun p => p.1 == k) then
    o.map fun p => if p.1 == k then (k, v) else p
  else o ++ [(k, v)]

/-! ## Stream event parser (`startStreaming`) -/

/-- One observable emission of the stream consumer: a normalized route
(`setRoutes` push), the final result (`setLiquidityAvailable`), a fatal
remote error, or a reported per-line parse error (`setError` in the catch
block). -/
inductive Ev where
  | routeFound (fields : List (String × Json))
  | result (liquidityAvailable : Json)
  | fatal (message : Json)
  | parseError

/-- State threaded through the per-line loop: accumulated routes (their
count fixes the next `displayIndex`), emissions in order, and whether a
terminal `return` has run. -/
structure LState where
  routes : List (List (String × Json))
  events : List Ev
  done : Bool

/-- The body of the `try` block after `JSON.parse` succeeded, operating on
the parsed value: fatal-error check, then dispatch on the inner event type,
normalizing a possibly nested route payload.  `Except.error` is a thrown
TypeError, handled by the enclosing catch. -/
def handleData (st : LState) (data : Json) : Except Unit LState := do
  let hasErr ← jsIn "error" data
  if hasErr then
    let eObj ← jsGet data "error"
    let msg ← jsGet eObj "message"
    return { st with events := st.events ++ [.fatal msg], done := true }
  else
    let d ← jsGet data "data"
    let ev ← jsGet d "event"
    let ty ← jsGet ev "type"
    if jsEqStr ty "route" then
      let routeData ← jsGet ev "data"
      let rsub ← jsGet routeData "route"
      let route ←
        if jsTruthy rsub then do
          let aT ← jsGet routeData "allowanceTarget"
          let zid ← jsGet d "zid"
          pure (jset (jset (spreadFields rsub) "allowanceTarget" aT) "id" zid)
        else do
          let zid ← jsGet d "zid"
          pure (jset (spreadFields routeData) "id" zid)
      let newRoute := jset route "displayIndex" (.num (st.routes.length + 1))
      return { st with routes := st.routes ++ [newRoute],
                       events := st.events ++ [.routeFound newRoute] }
    else if jsEqStr ty "result" then
      let rd ← jsGet ev "data"
      let liq ← jsGet rd "liquidityAvailable"
      return { st with events := st.events ++ [.result liq], done := true }
    else
      return st

/-- The six-character data-frame prefix `"data: "`. -/
def dataHeader : List Char := "data: ".data

/-- `line.startsWith("data: ")`. -/
def startsWithData (line : List Char) : Bool := line.take 6 == dataHeader

/-- The whitespace characters recognised by `String.prototype.trim`:
ECMAScript WhiteSpace (TAB, VT, FF, SP, NBSP, ZWNBSP and every
Space_Separator code point) plus LineTerminator (LF, CR, LS, PS). -/
def isJsWs (c : Char) : Bool :=
  c == ' ' || c == '\t' || c == '\n' || c == '\r' ||
  c == '\x0b' || c == '\x0c' ||
  c == '\u00A0' || c == '\uFEFF' || c == '\u1680' ||
  (0x2000 <= c.toNat && c.toNat <= 0x200A) ||
  c == '\u2028' || c == '\u2029' || c == '\u202F' ||
  c == '\u205F' || c == '\u3000'

/-- The body of the `for (const line of lines)` loop: non-prefixed lines
are discarded, a whitespace-only remainder is skipped, otherwise the
remainder is parsed as JSON and handled; a parse failure or a thrown
TypeError lands in the catch block, which reports a parse error and
continues. -/
def processLine (parse : List Char → Option Json) (st : LState)
    (line : List Char) : LState :=
  if startsWithData line then
    let eventData := line.drop 6
    if eventData.all isJsWs then st
    else
      match (match parse eventData with
             | some d => handleData st d
             | none => Except.error ()) with
      | .ok st' => st'
      | .error _ => { st with events := st.events ++ [.parseError] }
  else st

/-- The per-chunk line loop, stopping once a terminal `return` has run. -/
def processLines (parse : List Char → Option Json) (st : LState) :
    List (List Char) → LState
  | [] => st
  | l :: ls =>
    if st.done then st else processLines parse (processLine parse st l) ls

/-- `buffer.split("\n")` followed by `buffer = lines.pop()`: the complete
lines and the retained trailing fragment. -/
def breakLines : List Char → List (List Char) × List Char
  | [] => ([], [])
  | c :: cs =>
    let p := breakLines cs
    if c = '\n' then ([] :: p.1, p.2)
    else
      match p.1 with
      | [] => ([], c :: p.2)
      | l :: ls => ((c :: l) :: ls, p.2)

/-- Parser state across chunks: the line-loop state plus the carry-over
buffer of not-yet-terminated text. -/
structure PState where
  ls : LState
  buffer : List Char

/-- One iteration of the `while (true)` read loop on a decoded chunk:
append to the buffer, split off the complete lines, retain the trailing
fragment, process the lines. -/
def processChunk (parse : List Char → Option Json) (st : PState)
    (c : List Char) : PState :=
  let p := breakLines (st.buffer ++ c)
  { ls := processLines parse st.ls p.1, buffer := p.2 }

/-- The full read loop over the chunk sequence; a terminal `return` stops
all further reads, and stream end discards the remaining buffer. -/
def processChunks (parse : List Char → Option Json) (st : PState) :
    List (List Char) → PState
  | [] => st
  | c :: cs =>
    if st.ls.done then st
    else processChunks parse (processChunk parse st c) cs

/-- The initial parser state (`let buffer = ""` and fresh component state). -/
def initP : PState := ⟨⟨[], [], false⟩, []⟩

/-- One consumption of a whole response stream. -/
def runStream (parse : List Char → Option Json)
    (chunks : List (List Char)) : PState :=
  processChunks parse initP chunks

/-- A fetcher that always succeeds with the non-terminal `bridge_pending`. -/
def alwaysPending : Nat → Except Unit StatusResponse :=
  fun _ => .ok { status := .bridge_pending }

/-- A fetcher that returns `bridge_pending`, then terminal `bridge_filled`. -/
def terminalAtTwo : Nat → Except Unit StatusResponse :=
  fun i => if i = 1 then .ok { status := .bridge_filled }
           else .ok { status := .bridge_pending }

/-- A fetcher that fails on the first attempt and is pending afterwards. -/
def errThenPending : Nat → Except Unit StatusResponse :=
  fun i => if i = 0 then .error () else .ok { status := .bridge_pending }

/-- A fetcher that fails on every attempt. -/
def alwaysErr : Nat → Except Unit StatusResponse := fun _ => .error ()

/-- Wrapper shape of one streamed route event:
`data.zid` carries the correlation id, `data.event.type` is `"route"`,
`data.event.data` the payload. -/
def wrapRoute (zid payload : Json) : Json :=
  .obj [("data", .obj [("zid", zid),
    ("event", .obj [("type", .str "route"), ("data", payload)])])]

/-- Wrapper shape of the streamed result event. -/
def wrapResult (zid liq : Json) : Json :=
  .obj [("data", .obj [("zid", zid),
    ("event", .obj [("type", .str "result"),
      ("data", .obj [("liquidityAvailable", liq)])])])]

/-- Whether an emission is terminal (`StreamResult` or `FatalError`). -/
def isTerminalEv : Ev → Bool
  | .result _ => true
  | .fatal _ => true
  | _ => false

/-- A JSON parse table for concrete streams: `r1`/`r2` map to route
events, `res` to a result event, `e0` to a fatal object whose `error`
value is `null`, `e1` to a well-formed fatal object; everything else
fails to parse. -/
def parseFix : List Char → Option Json := fun s =>
  if s = "r1".data then
    some (wrapRoute (.str "z1") (.obj [("sellAmount", .str "1")]))
  else if s = "r2".data then
    some (wrapRoute (.str "z2") (.obj [("sellAmount", .str "2")]))
  else if s = "res".data then some (wrapResult (.str "z3") (.bool true))
  else if s = "e0".data then some (.obj [("error", .null)])
  else if s = "e1".data then
    some (.obj [("error",
      .obj [("message", .str "boom"), ("code", .str "X")])])
  else none

/-- A JSON parse that always fails. -/
def parseNone : List Char → Option Json := fun _ => none

/-- Invariant of the per-line state: while no terminal `return` has run,
no terminal event has been emitted; once one has, the terminal event is
the last emission and the only terminal one. -/
def terminalOnlyLast (st : LState) : Prop :=
  (st.done = false ∧ ∀ e ∈ st.events, isTerminalEv e = false) ∨
  (st.done = true ∧ ∃ pre t, st.events = pre ++ [t] ∧
    isTerminalEv t = true ∧ ∀ e ∈ pre, isTerminalEv e = false)


theorem monitorLoop_of_ge {ε : Type} (fetch : Nat → Except ε StatusResponse)
    {N a : Nat} (h : N ≤ a) :
    monitorLoop fetch N a = ⟨.timeout N, 0, 0, []⟩ := by
  rw [monitorLoop, dif_neg (by omega)]

theorem monitorLoop_ok_final {ε : Type}
    {fetch : Nat → Except ε StatusResponse} {N a : Nat} {s : StatusResponse}
    (ha : a < N) (hfa : fetch a = .ok s)
    (hf : isFinalState s.status = true) :
    monitorLoop fetch N a = ⟨.success s, 1, 0, [s]⟩ := by
  rw [monitorLoop, dif_pos ha, hfa]
  simp [hf]

theorem monitorLoop_ok_mid {ε : Type}
    {fetch : Nat → Except ε StatusResponse} {N a : Nat} {s : StatusResponse}
    (ha : a < N) (hfa : fetch a = .ok s)
    (hf : isFinalState s.status = false) (hl : a < N - 1) :
    monitorLoop fetch N a =
      ⟨(monitorLoop fetch N (a + 1)).outcome,
       (monitorLoop fetch N (a + 1)).fetches + 1,
       (monitorLoop fetch N (a + 1)).sleeps + 1,
       s :: (monitorLoop fetch N (a + 1)).updates⟩ := by
  rw [monitorLoop, dif_pos ha, hfa]
  simp [hf, hl]

theorem monitorLoop_ok_last {ε : Type}
    {fetch : Nat → Except ε StatusResponse} {N a : Nat} {s : StatusResponse}
    (ha : a < N) (hfa : fetch a = .ok s)
    (hf : isFinalState s.status = false) (hl : ¬a < N - 1) :
    monitorLoop fetch N a =
      ⟨(monitorLoop fetch N (a + 1)).outcome,
       (monitorLoop fetch N (a + 1)).fetches + 1,
       (monitorLoop fetch N (a + 1)).sleeps,
       s :: (monitorLoop fetch N (a + 1)).updates⟩ := by
  rw [monitorLoop, dif_pos ha, hfa]
  simp [hf, hl]

theorem monitorLoop_err_last {ε : Type}
    {fetch : Nat → Except ε StatusResponse} {N a : Nat} {e : ε}
    (ha : a < N) (hfa : fetch a = .error e) (hl : a = N - 1) :
    monitorLoop fetch N a = ⟨.fetchError e, 1, 0, []⟩ := by
  rw [monitorLoop, dif_pos ha, hfa]
  simp [hl]

theorem monitorLoop_err_mid {ε : Type}
    {fetch : Nat → Except ε StatusResponse} {N a : Nat} {e : ε}
    (ha : a < N) (hfa : fetch a = .error e) (hl : ¬a = N - 1) :
    monitorLoop fetch N a =
      ⟨(monitorLoop fetch N (a + 1)).outcome,
       (monitorLoop fetch N (a + 1)).fetches + 1,
       (monitorLoop fetch N (a + 1)).sleeps + 1,
       (monitorLoop fetch N (a + 1)).updates⟩ := by
  rw [monitorLoop, dif_pos ha, hfa]
  simp [hl]

theorem monitorLoop_fetches_pos {ε : Type}
    (fetch : Nat → Except ε StatusResponse) {N a : Nat} (h : a < N) :
    1 ≤ (monitorLoop fetch N a).fetches := by
  cases hfa : fetch a with
  | ok s =>
    by_cases hf : isFinalState s.status
    · rw [monitorLoop_ok_final h hfa hf]
    · by_cases hl : a < N - 1
      · rw [monitorLoop_ok_mid h hfa (by simpa using hf) hl]; simp
      · rw [monitorLoop_ok_last h hfa (by simpa using hf) hl]; simp
  | error e =>
    by_cases hl : a = N - 1
    · rw [monitorLoop_err_last h hfa hl]
    · rw [monitorLoop_err_mid h hfa hl]; simp

theorem monitorLoop_timeout {ε : Type} (fetch : Nat → Except ε StatusResponse)
    (N : Nat) :
    ∀ n a, N - a = n → a < N →
    (∀ i, a ≤ i → i < N → ∃ s, fetch i = .ok s ∧ isFinalState s.status = false) →
    (monitorLoop fetch N a).outcome = .timeout N ∧
    (monitorLoop fetch N a).fetches = N - a ∧
    (monitorLoop fetch N a).sleeps = N - a - 1 := by
  intro n
  induction n with
  | zero => intro a hn ha _; omega
  | succ m ih =>
    intro a hn ha hfetch
    obtain ⟨s, hs, hnf⟩ := hfetch a le_rfl ha
    by_cases hl : a < N - 1
    · rw [monitorLoop_ok_mid ha hs hnf hl]
      obtain ⟨ho, hf, hsl⟩ :=
        ih (a + 1) (by omega) (by omega) (fun i hi hi' => hfetch i (by omega) hi')
      exact ⟨ho, by simp only [hf]; omega, by simp only [hsl]; omega⟩
    · rw [monitorLoop_ok_last ha hs hnf hl,
        monitorLoop_of_ge fetch (show N ≤ a + 1 by omega)]
      exact ⟨rfl, by simp; omega, by simp; omega⟩

theorem monitorLoop_terminal {ε : Type}
    (fetch : Nat → Except ε StatusResponse) (N : Nat) (s : StatusResponse)
    (k : Nat) (hkN : k < N) (hk : fetch k = .ok s)
    (hfin : isFinalState s.status = true) :
    ∀ n a, k - a = n → a ≤ k →
    (∀ i, a ≤ i → i < k → ∃ t, fetch i = .ok t ∧ isFinalState t.status = false) →
    (monitorLoop fetch N a).outcome = .success s ∧
    (monitorLoop fetch N a).fetches = k + 1 - a ∧
    (monitorLoop fetch N a).sleeps = k - a := by
  intro n
  induction n with
  | zero =>
    intro a hn ha _
    have hak : a = k := by omega
    subst hak
    rw [monitorLoop_ok_final hkN hk hfin]
    simp
  | succ m ih =>
    intro a hn ha hfetch
    have hak : a < k := by omega
    obtain ⟨t, ht, hnf⟩ := hfetch a le_rfl hak
    rw [monitorLoop_ok_mid (by omega) ht hnf (by omega)]
    obtain ⟨ho, hf, hsl⟩ :=
      ih (a + 1) (by omega) (by omega) (fun i hi hi' => hfetch i (by omega) hi')
    exact ⟨ho, by simp only [hf]; omega, by simp only [hsl]; omega⟩

theorem monitorLoop_updates {ε : Type}
    (fetch : Nat → Except ε StatusResponse) (N : Nat) :
    ∀ n a, N - a = n →
    (monitorLoop fetch N a).updates =
      fetchedOk fetch a (monitorLoop fetch N a).fetches := by
  intro n
  induction n with
  | zero =>
    intro a hn
    rw [monitorLoop_of_ge fetch (by omega)]
    simp [fetchedOk]
  | succ m ih =>
    intro a hn
    have ha : a < N := by omega
    have hrec := ih (a + 1) (by omega)
    cases hfa : fetch a with
    | ok s =>
      by_cases hf : isFinalState s.status
      · rw [monitorLoop_ok_final ha hfa hf]
        simp [fetchedOk, List.range'_succ, List.filterMap_cons, hfa,
          Except.toOption]
      · by_cases hl : a < N - 1
        · rw [monitorLoop_ok_mid ha hfa (by simpa using hf) hl]
          simp only [fetchedOk, List.range'_succ, List.filterMap_cons, hfa,
            Except.toOption]
          exact congrArg _ hrec
        · rw [monitorLoop_ok_last ha hfa (by simpa using hf) hl]
          simp only [fetchedOk, List.range'_succ, List.filterMap_cons, hfa,
            Except.toOption]
          exact congrArg _ hrec
    | error e =>
      by_cases hl : a = N - 1
      · rw [monitorLoop_err_last ha hfa hl]
        simp [fetchedOk, List.range'_succ, List.filterMap_cons, hfa,
          Except.toOption]
      · rw [monitorLoop_err_mid ha hfa hl]
        simp only [fetchedOk, List.range'_succ, List.filterMap_cons, hfa,
          Except.toOption]
        exact hrec

theorem monitorLoop_error_swallowed {ε : Type}
    (fetch : Nat → Except ε StatusResponse) (N : Nat) :
    ∀ n a, N - a = n →
    ∀ i e, a ≤ i → i < a + (monitorLoop fetch N a).fetches →
    fetch i = .error e → i + 2 ≤ N →
    i + 2 ≤ a + (monitorLoop fetch N a).fetches := by
  intro n
  induction n with
  | zero =>
    intro a hn i e hai hif _ _
    rw [monitorLoop_of_ge fetch (by omega)] at hif ⊢
    omega
  | succ m ih =>
    intro a hn i e hai hif hie hiN
    have ha : a < N := by omega
    cases hfa : fetch a with
    | ok s =>
      by_cases hf : isFinalState s.status
      · rw [monitorLoop_ok_final ha hfa hf] at hif ⊢
        have hia : i = a := by simp at hif; omega
        rw [hia, hfa] at hie
        exact absurd hie (by simp)
      · have hrec := ih (a + 1) (by omega)
        by_cases hl : a < N - 1
        · rw [monitorLoop_ok_mid ha hfa (by simpa using hf) hl] at hif ⊢
          rcases Nat.eq_or_lt_of_le hai with hia | hia
          · rw [← hia, hfa] at hie; exact absurd hie (by simp)
          · have := hrec i e (by omega) (by simp at hif; omega) hie hiN
            simp only at hif ⊢
            omega
        · rw [monitorLoop_ok_last ha hfa (by simpa using hf) hl] at hif ⊢
          rcases Nat.eq_or_lt_of_le hai with hia | hia
          · rw [← hia, hfa] at hie; exact absurd hie (by simp)
          · have := hrec i e (by omega) (by simp at hif; omega) hie hiN
            simp only at hif ⊢
            omega
    | error e' =>
      by_cases hl : a = N - 1
      · rw [monitorLoop_err_last ha hfa hl] at hif ⊢
        omega
      · rw [monitorLoop_err_mid ha hfa hl] at hif ⊢
        rcases Nat.eq_or_lt_of_le hai with hia | hia
        · have h1 : 1 ≤ (monitorLoop fetch N (a + 1)).fetches :=
            monitorLoop_fetches_pos fetch (by omega)
          simp only at hif ⊢
          omega
        · have := ih (a + 1) (by omega) i e (by omega)
            (by simp at hif; omega) hie hiN
          simp only at hif ⊢
          omega

theorem monitorLoop_last_error {ε : Type}
    (fetch : Nat → Except ε StatusResponse) (N : Nat) (e : ε)
    (hN : 1 ≤ N) (hlast : fetch (N - 1) = .error e) :
    ∀ n a, N - a = n → a < N →
    a + (monitorLoop fetch N a).fetches = N →
    (monitorLoop fetch N a).outcome = .fetchError e := by
  intro n
  induction n with
  | zero => intro a hn ha _; omega
  | succ m ih =>
    intro a hn ha hcnt
    cases hfa : fetch a with
    | ok s =>
      by_cases hf : isFinalState s.status
      · rw [monitorLoop_ok_final ha hfa hf] at hcnt
        have : a = N - 1 := by simp at hcnt; omega
        rw [this, hlast] at hfa
        exact absurd hfa (by simp)
      · by_cases hl : a < N - 1
        · rw [monitorLoop_ok_mid ha hfa (by simpa using hf) hl] at hcnt ⊢
          exact ih (a + 1) (by omega) (by omega) (by simp at hcnt; omega)
        · have : a = N - 1 := by omega
          rw [this, hlast] at hfa
          exact absurd hfa (by simp)
    | error e' =>
      by_cases hl : a = N - 1
      · rw [monitorLoop_err_last ha hfa hl]
        rw [hl, hlast] at hfa
        simp only [Except.error.injEq] at hfa
        rw [hfa]
      · rw [monitorLoop_err_mid ha hfa hl] at hcnt ⊢
        exact ih (a + 1) (by omega) (by omega) (by simp at hcnt; omega)

theorem monitorLoop_sleeps {ε : Type}
    (fetch : Nat → Except ε StatusResponse) (N : Nat) :
    ∀ n a, N - a = n → a < N →
    (monitorLoop fetch N a).sleeps + 1 = (monitorLoop fetch N a).fetches := by
  intro n
  induction n with
  | zero => intro a hn ha; omega
  | succ m ih =>
    intro a hn ha
    cases hfa : fetch a with
    | ok s =>
      by_cases hf : isFinalState s.status
      · rw [monitorLoop_ok_final ha hfa hf]
      · by_cases hl : a < N - 1
        · have := ih (a + 1) (by omega) (by omega)
          rw [monitorLoop_ok_mid ha hfa (by simpa using hf) hl]
          simpa using this
        · rw [monitorLoop_ok_last ha hfa (by simpa using hf) hl,
            monitorLoop_of_ge fetch (show N ≤ a + 1 by omega)]
    | error e =>
      by_cases hl : a = N - 1
      · rw [monitorLoop_err_last ha hfa hl]
      · have := ih (a + 1) (by omega) (by omega)
        rw [monitorLoop_err_mid ha hfa hl]
        simpa using this

theorem status_mem_statusList (s : Status) : s ∈ statusList := by
  cases s <;> simp [statusList]

/-! ## Claim theorems for the monitor -/

/-- C1: for every attempt budget `N ≥ 1` and every fetcher that succeeds on
all `N` attempts with a non-terminal status, `monitorTransaction` makes
exactly `N` fetch calls, sleeps exactly `N - 1` times, and fails with the
monitoring-timeout error carrying the attempt count `N`. -/
theorem monitor_nonterminal_exhausts_budget {ε : Type}
    (fetch : Nat → Except ε StatusResponse) (N : Nat) (hN : 1 ≤ N)
    (h : ∀ i, i < N → ∃ s, fetch i = .ok s ∧ isFinalState s.status = false) :
    (monitorRun fetch N).outcome = .timeout N ∧
    (monitorRun fetch N).fetches = N ∧
    (monitorRun fetch N).sleeps = N - 1 := by
  have hm := monitorLoop_timeout fetch N N 0 (by omega) (by omega)
    (fun i _ hi => h i hi)
  rw [monitorRun]
  exact ⟨hm.1, by omega, by omega⟩

theorem monitor_nonterminal_exhausts_budget_witness :
    (monitorRun alwaysPending 3).outcome = .timeout 3 ∧
    (monitorRun alwaysPending 3).fetches = 3 ∧
    (monitorRun alwaysPending 3).sleeps = 2 :=
  monitor_nonterminal_exhausts_budget alwaysPending 3 (by omega)
    (fun i _ => ⟨{ status := .bridge_pending }, rfl, by decide⟩)

/-- C2: if the fetcher succeeds on attempt `k` (1-based, `k ≤ N`) with a
terminal status and on attempts `1..k-1` with non-terminal statuses, the
monitor returns exactly that `k`-th status after `k` fetches and `k - 1`
sleeps, and the returned status lies in the closed enumerated set. -/
theorem monitor_returns_first_terminal {ε : Type}
    (fetch : Nat → Except ε StatusResponse) (N k : Nat) (s : StatusResponse)
    (hk1 : 1 ≤ k) (hkN : k ≤ N)
    (hpre : ∀ i, i < k - 1 → ∃ t, fetch i = .ok t ∧ isFinalState t.status = false)
    (hterm : fetch (k - 1) = .ok s) (hfin : isFinalState s.status = true) :
    (monitorRun fetch N).outcome = .success s ∧
    (monitorRun fetch N).fetches = k ∧
    (monitorRun fetch N).sleeps = k - 1 ∧
    s.status ∈ statusList := by
  have hm := monitorLoop_terminal fetch N s (k - 1) (by omega) hterm hfin
    (k - 1) 0 (by omega) (by omega) (fun i _ hi => hpre i hi)
  rw [monitorRun]
  exact ⟨hm.1, by omega, by omega, status_mem_statusList s.status⟩

theorem monitor_returns_first_terminal_witness :
    (monitorRun terminalAtTwo 5).outcome =
      .success { status := .bridge_filled } ∧
    (monitorRun terminalAtTwo 5).fetches = 2 ∧
    (monitorRun terminalAtTwo 5).sleeps = 1 ∧
    Status.bridge_filled ∈ statusList :=
  monitor_returns_first_terminal terminalAtTwo 5 2
    { status := .bridge_filled } (by omega) (by omega)
    (fun i hi => by
      have : i = 0 := by omega
      subst this
      exact ⟨{ status := .bridge_pending }, rfl, by decide⟩)
    rfl (by decide)

/-- C3: `onUpdate` fires exactly once per successful fetch, with the fetched
status, and never for a failed attempt; a fetch error on an attempt before
the last is swallowed (the run proceeds to the next attempt after the one
sleep separating consecutive attempts); a fetch error on the very last
attempt propagates that error to the caller. -/
theorem monitor_update_and_error_policy {ε : Type}
    (fetch : Nat → Except ε StatusResponse) (N : Nat) :
    (monitorRun fetch N).updates =
      fetchedOk fetch 0 (monitorRun fetch N).fetches ∧
    (∀ i e, i < (monitorRun fetch N).fetches → fetch i = .error e →
      i + 2 ≤ N → i + 2 ≤ (monitorRun fetch N).fetches) ∧
    (∀ e, 1 ≤ N → fetch (N - 1) = .error e →
      (monitorRun fetch N).fetches = N →
      (monitorRun fetch N).outcome = .fetchError e) ∧
    (1 ≤ (monitorRun fetch N).fetches →
      (monitorRun fetch N).sleeps + 1 = (monitorRun fetch N).fetches) := by
  rw [monitorRun]
  refine ⟨monitorLoop_updates fetch N N 0 (by omega), ?_, ?_, ?_⟩
  · intro i e hif hie hiN
    have := monitorLoop_error_swallowed fetch N N 0 (by omega) i e
      (by omega) (by omega) hie hiN
    omega
  · intro e hN hlast hcnt
    exact monitorLoop_last_error fetch N e hN hlast N 0 (by omega)
      (by omega) (by omega)
  · intro h1
    by_cases hN : 0 < N
    · exact monitorLoop_sleeps fetch N N 0 (by omega) (by omega)
    · rw [monitorLoop_of_ge fetch (by omega)] at h1
      exact absurd h1 (by simp)

theorem monitor_update_and_error_policy_witness :
    ((monitorRun errThenPending 2).updates =
      fetchedOk errThenPending 0 (monitorRun errThenPending 2).fetches) ∧
    0 + 2 ≤ (monitorRun errThenPending 2).fetches ∧
    (monitorRun alwaysErr 2).outcome = .fetchError () ∧
    (monitorRun errThenPending 2).sleeps + 1 =
      (monitorRun errThenPending 2).fetches := by
  refine ⟨(monitor_update_and_error_policy errThenPending 2).1,
    (monitor_update_and_error_policy errThenPending 2).2.1 0 () ?_ rfl
      (by omega),
    (monitor_update_and_error_policy alwaysErr 2).2.2.1 () (by omega) rfl ?_,
    (monitor_update_and_error_policy errThenPending 2).2.2.2 ?_⟩
  · simp [monitorRun, monitorLoop, errThenPending]
  · simp [monitorRun, monitorLoop, alwaysErr]
  · simp [monitorRun, monitorLoop, errThenPending, isFinalState, finalStates]

/-- C8: with attempt budget `0`, `monitorTransaction` performs no fetch,
never invokes `onUpdate`, never sleeps, and throws the monitoring-timeout
error reporting `0` attempts — the `N ≥ 1` budget is not enforced. -/
theorem monitor_zero_budget_times_out {ε : Type}
    (fetch : Nat → Except ε StatusResponse) :
    monitorRun fetch 0 = ⟨.timeout 0, 0, 0, []⟩ := by
  rw [monitorRun, monitorLoop_of_ge fetch (Nat.le_refl 0)]

/-! ## Stream parser lemmas -/

theorem processLines_of_done (parse : List Char → Option Json) (st : LState)
    (h : st.done = true) : ∀ ls, processLines parse st ls = st := by
  intro ls
  cases ls <;> simp [processLines, h]

theorem processLines_append (parse : List Char → Option Json) :
    ∀ xs ys (st : LState),
    processLines parse st (xs ++ ys) =
      processLines parse (processLines parse st xs) ys := by
  intro xs
  induction xs with
  | nil => intro ys st; rfl
  | cons x xs ih =>
    intro ys st
    by_cases h : st.done
    · simp [processLines, h, processLines_of_done parse st h]
    · simp only [List.cons_append, processLines, h, if_false]
      exact ih ys (processLine parse st x)

theorem breakLines_append (a b : List Char) :
    breakLines (a ++ b) =
      ((breakLines a).1 ++ (breakLines ((breakLines a).2 ++ b)).1,
       (breakLines ((breakLines a).2 ++ b)).2) := by
  induction a with
  | nil => simp [breakLines]
  | cons c cs ih =>
    by_cases hc : c = '\n'
    · simp [breakLines, hc, ih]
    · cases hcs : (breakLines cs).1 with
      | nil =>
        cases hb : (breakLines ((breakLines cs).2 ++ b)).1 with
        | nil => simp [breakLines, hc, ih, hcs, hb]
        | cons l ls => simp [breakLines, hc, ih, hcs, hb]
      | cons l ls =>
        simp [breakLines, hc, ih, hcs]

theorem processChunks_of_done (parse : List Char → Option Json)
    (st : PState) (h : st.ls.done = true) :
    ∀ cs, processChunks parse st cs = st := by
  intro cs
  cases cs <;> simp [processChunks, h]

theorem processChunk_append (parse : List Char → Option Json) (st : PState)
    (a b : List Char) :
    processChunk parse st (a ++ b) =
      processChunk parse (processChunk parse st a) b := by
  simp only [processChunk]
  rw [← List.append_assoc, breakLines_append, processLines_append]

theorem processChunks_cons (parse : List Char → Option Json) (st : PState)
    (c : List Char) (cs : List (List Char)) :
    processChunks parse st (c :: cs) =
      if st.ls.done then st
      else processChunks parse (processChunk parse st c) cs := rfl

theorem processChunks_split (parse : List Char → Option Json) (st : PState)
    (a b : List Char) (cs : List (List Char)) :
    (processChunks parse st (a :: b :: cs)).ls =
      (processChunks parse st ((a ++ b) :: cs)).ls := by
  by_cases hd : st.ls.done
  · rw [processChunks_of_done parse st hd, processChunks_of_done parse st hd]
  · have hL : processChunks parse st (a :: b :: cs) =
        processChunks parse (processChunk parse st a) (b :: cs) := by
      rw [processChunks_cons, if_neg hd]
    have hR : processChunks parse st ((a ++ b) :: cs) =
        processChunks parse
          (processChunk parse (processChunk parse st a) b) cs := by
      rw [processChunks_cons, if_neg hd, processChunk_append]
    rw [hL, hR, processChunks_cons]
    by_cases hm : (processChunk parse st a).ls.done
    · rw [if_pos hm]
      have hls : (processChunk parse (processChunk parse st a) b).ls =
          (processChunk parse st a).ls :=
        processLines_of_done parse _ hm _
      rw [processChunks_of_done parse _ (by rw [hls]; exact hm), hls]
    · rw [if_neg hm]

theorem breakLines_noNL (s : List Char) (h : '\n' ∉ s) :
    breakLines s = ([], s) := by
  induction s with
  | nil => rfl
  | cons c cs ih =>
    simp only [List.mem_cons, not_or] at h
    simp [breakLines, Ne.symm h.1, ih h.2]

theorem breakLines_snd_noNL (s : List Char) : '\n' ∉ (breakLines s).2 := by
  induction s with
  | nil => simp [breakLines]
  | cons c cs ih =>
    by_cases hc : c = '\n'
    · simp [breakLines, hc, ih]
    · cases h1 : (breakLines cs).1 with
      | nil => simp [breakLines, hc, h1, ih, Ne.symm hc]
      | cons l ls => simp [breakLines, hc, h1, ih]

example :
    (runStream parseFix ["data: r1\ndata: r2\ndata: res\n".data]).ls.events =
      [.routeFound [("sellAmount", .str "1"), ("id", .str "z1"),
         ("displayIndex", .num 1)],
       .routeFound [("sellAmount", .str "2"), ("id", .str "z2"),
         ("displayIndex", .num 2)],
       .result (.bool true)] := rfl

/-! ## Claim theorems for the stream parser -/

/-- C4: feeding a stream split at any position as two successive chunks
yields exactly the same parser outcome (events with their display indices,
routes, termination flag) as feeding it whole; and a fragment with no
newline is never parsed as a line — it is retained as the carry-over
buffer, to be prefixed to the next chunk. -/
theorem stream_split_invariant (parse : List Char → Option Json)
    (S : List Char) (i : Nat) :
    ((runStream parse [S.take i, S.drop i]).ls = (runStream parse [S]).ls) ∧
    (∀ s : List Char, '\n' ∉ s →
      (runStream parse [s]).ls = initP.ls ∧
      (runStream parse [s]).buffer = s) := by
  constructor
  · have h := processChunks_split parse initP (S.take i) (S.drop i) []
    rw [List.take_append_drop] at h
    exact h
  · intro s hs
    have hb : breakLines s = ([], s) := breakLines_noNL s hs
    constructor <;>
      simp [runStream, processChunks, processChunk, initP, hb, processLines]

theorem stream_split_invariant_witness :
    ((runStream parseNone ["ab\ncd".data.take 4, "ab\ncd".data.drop 4]).ls =
      (runStream parseNone ["ab\ncd".data]).ls) ∧
    ((runStream parseNone ["xy".data]).ls = initP.ls ∧
     (runStream parseNone ["xy".data]).buffer = "xy".data) :=
  ⟨(stream_split_invariant parseNone "ab\ncd".data 4).1,
   (stream_split_invariant parseNone "ab\ncd".data 4).2 "xy".data
     (by decide)⟩

/-- C9: if the stream ends while the carry-over buffer holds a fragment
not terminated by a newline, that fragment is discarded unprocessed —
appending a newline-free final chunk changes nothing observable. -/
theorem stream_trailing_fragment_discarded (parse : List Char → Option Json)
    (chunks : List (List Char)) (s : List Char) (hs : '\n' ∉ s) :
    (runStream parse (chunks ++ [s])).ls = (runStream parse chunks).ls := by
  rw [runStream, runStream]
  have key : ∀ (cs : List (List Char)) (st : PState), '\n' ∉ st.buffer →
      (processChunks parse st (cs ++ [s])).ls =
        (processChunks parse st cs).ls := by
    intro cs
    induction cs with
    | nil =>
      intro st hb
      by_cases hd : st.ls.done
      · rw [processChunks_of_done parse st hd,
          processChunks_of_done parse st hd]
      · rw [List.nil_append, processChunks_cons, if_neg hd]
        have hbs : breakLines (st.buffer ++ s) = ([], st.buffer ++ s) :=
          breakLines_noNL _ (by simp [hb, hs])
        simp [processChunk, hbs, processLines, processChunks]
    | cons c cs ih =>
      intro st hb
      by_cases hd : st.ls.done
      · rw [processChunks_of_done parse st hd,
          processChunks_of_done parse st hd]
      · rw [List.cons_append, processChunks_cons, if_neg hd,
          processChunks_cons, if_neg hd]
        exact ih (processChunk parse st c) (breakLines_snd_noNL _)
  exact key chunks initP (by simp [initP])

theorem stream_trailing_fragment_discarded_witness :
    (runStream parseFix (["data: r1\n".data] ++ ["data: r2".data])).ls =
      (runStream parseFix ["data: r1\n".data]).ls :=
  stream_trailing_fragment_discarded parseFix ["data: r1\n".data]
    "data: r2".data (by decide)

/-- C10: the data-frame prefix is matched as the six characters
`"data: "`; a line `data:<payload>` with no space after the colon is
discarded without any event or state change, whatever the payload. -/
theorem data_prefix_requires_space (parse : List Char → Option Json)
    (st : LState) (payload : List Char)
    (h : ∀ c, payload.head? = some c → c ≠ ' ') :
    processLine parse st ("data:".data ++ payload) = st := by
  cases payload with
  | nil => rfl
  | cons c cs =>
    have hc : c ≠ ' ' := h c rfl
    have hpre :
        startsWithData ('d' :: 'a' :: 't' :: 'a' :: ':' :: c :: cs) = false := by
      simp [startsWithData, List.take, dataHeader, hc]
    show processLine parse st ('d' :: 'a' :: 't' :: 'a' :: ':' :: c :: cs) = st
    simp [processLine, hpre]

theorem data_prefix_requires_space_witness :
    processLine parseNone ⟨[], [], false⟩ ("data:".data ++ "null".data) =
      ⟨[], [], false⟩ :=
  data_prefix_requires_space parseNone ⟨[], [], false⟩ "null".data
    (by intro c hc; injection hc with hc; rw [← hc]; decide)

theorem except_bind_ok {ε α β : Type} (a : α) (f : α → Except ε β) :
    (Except.ok a : Except ε α) >>= f = f a := rfl

theorem except_bind_error {ε α β : Type} (e : ε) (f : α → Except ε β) :
    (Except.error e : Except ε α) >>= f = .error e := rfl

theorem except_map_ok {ε α β : Type} (f : α → β) (a : α) :
    f <$> (Except.ok a : Except ε α) = Except.ok (f a) := rfl

theorem except_map_error {ε α β : Type} (f : α → β) (e : ε) :
    f <$> (Except.error e : Except ε α) = .error e := rfl

/-- C7: a line without the data-frame prefix is discarded with no event and
no state change; a prefixed line with a whitespace-only remainder is
skipped; a prefixed line whose remainder fails to parse as JSON is
reported as a parse error without ending the stream, and the following
lines are still processed from that updated state. -/
theorem line_discard_skip_parse_error (parse : List Char → Option Json)
    (st : LState) (line : List Char) :
    (startsWithData line = false → processLine parse st line = st) ∧
    (startsWithData line = true → (line.drop 6).all isJsWs = true →
      processLine parse st line = st) ∧
    (startsWithData line = true → (line.drop 6).all isJsWs = false →
      parse (line.drop 6) = none →
      processLine parse st line =
        { st with events := st.events ++ [.parseError] }) ∧
    (st.done = false → ∀ ls, processLines parse st (line :: ls) =
      processLines parse (processLine parse st line) ls) := by
  refine ⟨?_, ?_, ?_, ?_⟩
  · intro h; simp [processLine, h]
  · intro h hws; simp [processLine, h, hws]
  · intro h hws hp; simp [processLine, h, hws, hp]
  · intro hd ls; simp [processLines, hd]

theorem line_discard_skip_parse_error_witness :
    (processLine parseFix ⟨[], [], false⟩ "comment".data = ⟨[], [], false⟩) ∧
    (processLine parseFix ⟨[], [], false⟩ "data:   ".data = ⟨[], [], false⟩) ∧
    (processLine parseFix ⟨[], [], false⟩ "data: \u00A0 ".data =
      ⟨[], [], false⟩) ∧
    (processLine parseFix ⟨[], [], false⟩ "data: zz".data =
      ⟨[], [.parseError], false⟩) ∧
    (processLines parseFix ⟨[], [], false⟩
        ["data: zz".data, "data: r1".data] =
      processLines parseFix
        (processLine parseFix ⟨[], [], false⟩ "data: zz".data)
        ["data: r1".data]) :=
  ⟨(line_discard_skip_parse_error parseFix ⟨[], [], false⟩
      "comment".data).1 (by decide),
   (line_discard_skip_parse_error parseFix ⟨[], [], false⟩
      "data:   ".data).2.1 (by decide) (by decide),
   (line_discard_skip_parse_error parseFix ⟨[], [], false⟩
      "data: \u00A0 ".data).2.1 (by decide) (by decide),
   (line_discard_skip_parse_error parseFix ⟨[], [], false⟩
      "data: zz".data).2.2.1 (by decide) (by decide) rfl,
   (line_discard_skip_parse_error parseFix ⟨[], [], false⟩
      "data: zz".data).2.2.2 rfl ["data: r1".data]⟩

theorem lookup_append_of_not_mem {β : Type} (k : String)
    (F rest : List (String × β)) (h : k ∉ F.map Prod.fst) :
    List.lookup k (F ++ rest) = List.lookup k rest := by
  induction F with
  | nil => rfl
  | cons p ps ih =>
    simp only [List.map_cons, List.mem_cons, not_or] at h
    obtain ⟨h1, h2⟩ := h
    cases p with
    | mk k' v =>
      have hne : (k == k') = false := by
        simp only [beq_eq_false_iff_ne]
        exact h1
      simp only [List.cons_append, List.lookup, hne, List.append_eq]
      exact ih h2

theorem jset_of_not_mem (o : List (String × Json)) (k : String) (v : Json)
    (h : k ∉ o.map Prod.fst) : jset o k v = o ++ [(k, v)] := by
  have ha : (o.any fun p => p.1 == k) = false := by
    rw [List.any_eq_false]
    intro p hp hbe
    exact h (eq_of_beq hbe ▸ List.mem_map_of_mem Prod.fst hp)
  simp [jset, ha]

/-- C6: a nested route payload `{route: {...F}, allowanceTarget}` and the
flat payload `{...F, allowanceTarget}` with the same field values produce
identical normalized route records: same flattened fields, same
`allowanceTarget`, same correlation id, same display index. -/
theorem route_nested_flat_identical (st : LState)
    (F : List (String × Json)) (a zid : Json)
    (hAT : "allowanceTarget" ∉ F.map Prod.fst)
    (hR : "route" ∉ F.map Prod.fst) :
    handleData st
      (wrapRoute zid (.obj [("route", .obj F), ("allowanceTarget", a)])) =
    handleData st (wrapRoute zid (.obj (F ++ [("allowanceTarget", a)]))) := by
  have h1 : List.lookup "route" (F ++ [("allowanceTarget", a)]) = none := by
    rw [lookup_append_of_not_mem "route" F [("allowanceTarget", a)] hR]
    rfl
  have h2 : jset F "allowanceTarget" a = F ++ [("allowanceTarget", a)] :=
    jset_of_not_mem F "allowanceTarget" a hAT
  have hL : handleData st
      (wrapRoute zid (.obj [("route", .obj F), ("allowanceTarget", a)])) =
      .ok { st with
        routes := st.routes ++
          [jset (jset (jset F "allowanceTarget" a) "id" zid) "displayIndex"
            (.num (st.routes.length + 1))],
        events := st.events ++
          [.routeFound (jset (jset (jset F "allowanceTarget" a) "id" zid)
            "displayIndex" (.num (st.routes.length + 1)))] } := rfl
  have hRt : handleData st
      (wrapRoute zid (.obj (F ++ [("allowanceTarget", a)]))) =
      .ok { st with
        routes := st.routes ++
          [jset (jset (F ++ [("allowanceTarget", a)]) "id" zid)
            "displayIndex" (.num (st.routes.length + 1))],
        events := st.events ++
          [.routeFound (jset (jset (F ++ [("allowanceTarget", a)]) "id" zid)
            "displayIndex" (.num (st.routes.length + 1)))] } := by
    simp [handleData, wrapRoute, jsGet, jsIn, jsEqStr, jsTruthy, spreadFields,
      h1, except_bind_ok, except_map_ok, List.lookup, Option.getD]
  rw [hL, hRt, h2]

theorem route_nested_flat_identical_witness :
    handleData ⟨[], [], false⟩
      (wrapRoute (.str "z1")
        (.obj [("route", .obj [("sellAmount", .str "7")]),
               ("allowanceTarget", .str "0xA")])) =
    handleData ⟨[], [], false⟩
      (wrapRoute (.str "z1")
        (.obj [("sellAmount", .str "7"), ("allowanceTarget", .str "0xA")])) :=
  route_nested_flat_identical ⟨[], [], false⟩ [("sellAmount", .str "7")]
    (.str "0xA") (.str "z1") (by decide) (by decide)

theorem handleData_cases (st : LState) (data : Json) (st' : LState)
    (h : handleData st data = .ok st') :
    st' = st ∨
    (∃ r, st' = { st with routes := st.routes ++ [r],
                          events := st.events ++ [.routeFound r] }) ∨
    (∃ m, st' = { st with events := st.events ++ [.fatal m],
                          done := true }) ∨
    (∃ b, st' = { st with events := st.events ++ [.result b],
                          done := true }) := by
  cases h0 : jsIn "error" data with
  | error e => simp [handleData, h0, except_bind_error] at h
  | ok hasErr =>
    simp only [handleData, h0, except_bind_ok] at h
    by_cases hb : hasErr = true
    · rw [if_pos hb] at h
      cases h1 : jsGet data "error" with
      | error e => simp [h1, except_bind_error] at h
      | ok eObj =>
        simp only [h1, except_bind_ok] at h
        cases h2 : jsGet eObj "message" with
        | error e => simp [h2, except_map_error] at h
        | ok m =>
          simp only [h2, except_bind_ok, except_map_ok, pure, Except.pure,
            Except.ok.injEq] at h
          exact Or.inr (Or.inr (Or.inl ⟨m, h.symm⟩))
    · rw [if_neg hb] at h
      cases h1 : jsGet data "data" with
      | error e => simp [h1, except_bind_error] at h
      | ok d =>
        simp only [h1, except_bind_ok] at h
        cases h2 : jsGet d "event" with
        | error e => simp [h2, except_bind_error] at h
        | ok ev =>
          simp only [h2, except_bind_ok] at h
          cases h3 : jsGet ev "type" with
          | error e => simp [h3, except_bind_error] at h
          | ok ty =>
            simp only [h3, except_bind_ok] at h
            by_cases h4 : jsEqStr ty "route" = true
            · rw [if_pos h4] at h
              cases h5 : jsGet ev "data" with
              | error e => simp [h5, except_bind_error] at h
              | ok routeData =>
                simp only [h5, except_bind_ok] at h
                cases h6 : jsGet routeData "route" with
                | error e => simp [h6, except_bind_error] at h
                | ok rsub =>
                  simp only [h6, except_bind_ok] at h
                  by_cases h7 : jsTruthy rsub = true
                  · rw [if_pos h7] at h
                    cases h8 : jsGet routeData "allowanceTarget" with
                    | error e => simp [h8, except_bind_error] at h
                    | ok aT =>
                      simp only [h8, except_bind_ok] at h
                      cases h9 : jsGet d "zid" with
                      | error e =>
                        simp [h9, except_bind_error, except_map_error] at h
                      | ok zid =>
                        simp only [h9, except_bind_ok, except_map_ok, pure,
                          Except.pure, Except.ok.injEq] at h
                        exact Or.inr (Or.inl ⟨_, h.symm⟩)
                  · rw [if_neg h7] at h
                    cases h9 : jsGet d "zid" with
                    | error e =>
                      simp [h9, except_bind_error, except_map_error] at h
                    | ok zid =>
                      simp only [h9, except_bind_ok, except_map_ok, pure,
                        Except.pure, Except.ok.injEq] at h
                      exact Or.inr (Or.inl ⟨_, h.symm⟩)
            · rw [if_neg h4] at h
              by_cases h5 : jsEqStr ty "result" = true
              · rw [if_pos h5] at h
                cases h6 : jsGet ev "data" with
                | error e => simp [h6, except_bind_error] at h
                | ok rd =>
                  simp only [h6, except_bind_ok] at h
                  cases h7 : jsGet rd "liquidityAvailable" with
                  | error e => simp [h7, except_map_error] at h
                  | ok liq =>
                    simp only [h7, except_bind_ok, except_map_ok, pure,
                      Except.pure, Except.ok.injEq] at h
                    exact Or.inr (Or.inr (Or.inr ⟨liq, h.symm⟩))
              · rw [if_neg h5] at h
                simp only [pure, Except.pure, Except.ok.injEq] at h
                exact Or.inl h.symm

theorem processLine_cases (parse : List Char → Option Json) (st : LState)
    (line : List Char) :
    processLine parse st line = st ∨
    processLine parse st line =
      { st with events := st.events ++ [.parseError] } ∨
    (∃ r, processLine parse st line =
      { st with routes := st.routes ++ [r],
                events := st.events ++ [.routeFound r] }) ∨
    (∃ m, processLine parse st line =
      { st with events := st.events ++ [.fatal m], done := true }) ∨
    (∃ b, processLine parse st line =
      { st with events := st.events ++ [.result b], done := true }) := by
  by_cases h1 : startsWithData line
  · by_cases h2 : (line.drop 6).all isJsWs
    · exact Or.inl (by simp [processLine, h1, h2])
    · cases hp : parse (line.drop 6) with
      | none =>
        exact Or.inr (Or.inl (by simp [processLine, h1, h2, hp]))
      | some d =>
        cases hh : handleData st d with
        | error e =>
          exact Or.inr (Or.inl (by simp [processLine, h1, h2, hp, hh]))
        | ok st' =>
          have hpl : processLine parse st line = st' := by
            simp [processLine, h1, h2, hp, hh]
          rcases handleData_cases st d st' hh with h | ⟨r, h⟩ | ⟨m, h⟩ | ⟨b, h⟩
          · exact Or.inl (hpl.trans h)
          · exact Or.inr (Or.inr (Or.inl ⟨r, hpl.trans h⟩))
          · exact Or.inr (Or.inr (Or.inr (Or.inl ⟨m, hpl.trans h⟩)))
          · exact Or.inr (Or.inr (Or.inr (Or.inr ⟨b, hpl.trans h⟩)))
  · exact Or.inl (by simp [processLine, h1])

theorem processLines_preserves_terminalOnlyLast
    (parse : List Char → Option Json) :
    ∀ ls (st : LState), terminalOnlyLast st →
    terminalOnlyLast (processLines parse st ls) := by
  intro ls
  induction ls with
  | nil => intro st h; exact h
  | cons l ls ih =>
    intro st h
    by_cases hd : st.done
    · rw [show processLines parse st (l :: ls) = st from by
        simp [processLines, hd]]
      exact h
    · rw [show processLines parse st (l :: ls) =
          processLines parse (processLine parse st l) ls from by
        simp [processLines, hd]]
      apply ih
      have hdf : st.done = false := by simpa using hd
      rcases h with ⟨_, hne⟩ | ⟨hdt, _⟩
      · rcases processLine_cases parse st l with
          hc | hc | ⟨r, hc⟩ | ⟨m, hc⟩ | ⟨b, hc⟩
        · rw [hc]; exact Or.inl ⟨hdf, hne⟩
        · rw [hc]
          refine Or.inl ⟨hdf, ?_⟩
          intro e he
          rcases List.mem_append.mp he with h' | h'
          · exact hne e h'
          · simp only [List.mem_singleton] at h'
            subst h'
            rfl
        · rw [hc]
          refine Or.inl ⟨hdf, ?_⟩
          intro e he
          rcases List.mem_append.mp he with h' | h'
          · exact hne e h'
          · simp only [List.mem_singleton] at h'
            subst h'
            rfl
        · rw [hc]
          exact Or.inr ⟨rfl, st.events, .fatal m, rfl, rfl, hne⟩
        · rw [hc]
          exact Or.inr ⟨rfl, st.events, .result b, rfl, rfl, hne⟩
      · rw [hdt] at hdf
        exact absurd hdf (by simp)

theorem processChunks_preserves_terminalOnlyLast
    (parse : List Char → Option Json) :
    ∀ cs (st : PState), terminalOnlyLast st.ls →
    terminalOnlyLast (processChunks parse st cs).ls := by
  intro cs
  induction cs with
  | nil => intro st h; exact h
  | cons c cs ih =>
    intro st h
    by_cases hd : st.ls.done
    · rw [processChunks_of_done parse st hd]
      exact h
    · rw [processChunks_cons, if_neg hd]
      apply ih
      exact processLines_preserves_terminalOnlyLast parse _ st.ls h

/-- C5 counterexample: the data line `data: e0` parses to a JSON body that
does contain an `error` key (value `null`), yet the stream does not emit a
`FatalError` and does not end — the property access
`fatalError.error.message` throws, the catch block reports a parse error,
and a later route event is still emitted. -/
theorem stream_error_key_not_fatal_counterexample :
    parseFix "e0".data = some (.obj [("error", .null)]) ∧
    jsIn "error" (.obj [("error", .null)]) = .ok true ∧
    (runStream parseFix ["data: e0\ndata: r1\n".data]).ls.events =
      [.parseError,
       .routeFound [("sellAmount", .str "1"), ("id", .str "z1"),
         ("displayIndex", .num 1)]] ∧
    ((runStream parseFix ["data: e0\ndata: r1\n".data]).ls.events.all
      fun e => !isTerminalEv e) = true :=
  ⟨rfl, rfl, rfl, rfl⟩

/-- C5 (amended): the parser emits at most one terminal event
(`StreamResult` or `FatalError`), and only as the very last emission; a
`data: ` line whose JSON body contains an `error` key with a value that is
neither `null` nor `undefined` emits exactly one `FatalError` and ends the
sequence; a line whose inner type is `"result"` with an event-data value
that is neither `null` nor `undefined` emits exactly one `StreamResult`
and ends the sequence. -/
theorem stream_single_terminal (parse : List Char → Option Json) :
    (∀ chunks, ∀ e ∈ (runStream parse chunks).ls.events.dropLast,
      isTerminalEv e = false) ∧
    (∀ (st : LState) (line : List Char) (data v : Json),
      startsWithData line = true → (line.drop 6).all isJsWs = false →
      parse (line.drop 6) = some data → jsIn "error" data = .ok true →
      jsGet data "error" = .ok v → v ≠ .null → v ≠ .undefined →
      ∃ m, jsGet v "message" = .ok m ∧
        processLine parse st line =
          { st with events := st.events ++ [.fatal m], done := true }) ∧
    (∀ (st : LState) (line : List Char) (data d ev ty rd : Json),
      startsWithData line = true → (line.drop 6).all isJsWs = false →
      parse (line.drop 6) = some data → jsIn "error" data = .ok false →
      jsGet data "data" = .ok d → jsGet d "event" = .ok ev →
      jsGet ev "type" = .ok ty → jsEqStr ty "route" = false →
      jsEqStr ty "result" = true → jsGet ev "data" = .ok rd →
      rd ≠ .null → rd ≠ .undefined →
      ∃ liq, jsGet rd "liquidityAvailable" = .ok liq ∧
        processLine parse st line =
          { st with events := st.events ++ [.result liq], done := true }) := by
  refine ⟨?_, ?_, ?_⟩
  · intro chunks e he
    have hinv := processChunks_preserves_terminalOnlyLast parse chunks initP
      (Or.inl ⟨rfl, by simp [initP]⟩)
    rcases hinv with ⟨_, hne⟩ | ⟨_, pre, t, heq, _, hpre⟩
    · exact hne e (List.dropLast_subset _ he)
    · rw [runStream] at he
      rw [heq, List.dropLast_concat] at he
      exact hpre e he
  · intro st line data v h1 h2 hp herr hv hn hu
    obtain ⟨m, hm⟩ : ∃ m, jsGet v "message" = .ok m := by
      cases v <;>
        first
        | exact absurd rfl hn
        | exact absurd rfl hu
        | exact ⟨_, rfl⟩
    refine ⟨m, hm, ?_⟩
    simp [processLine, h1, h2, hp, handleData, herr, hv, hm,
      except_bind_ok, except_map_ok, pure, Except.pure]
  · intro st line data d ev ty rd h1 h2 hp herr hd hev hty hro hre hrd hn hu
    obtain ⟨liq, hliq⟩ : ∃ liq, jsGet rd "liquidityAvailable" = .ok liq := by
      cases rd <;>
        first
        | exact absurd rfl hn
        | exact absurd rfl hu
        | exact ⟨_, rfl⟩
    refine ⟨liq, hliq, ?_⟩
    simp [processLine, h1, h2, hp, handleData, herr, hd, hev, hty, hro, hre,
      hrd, hliq, except_bind_ok, except_map_ok, pure, Except.pure]

theorem stream_single_terminal_witness :
    (isTerminalEv (.routeFound [("sellAmount", .str "1"), ("id", .str "z1"),
      ("displayIndex", .num 1)]) = false) ∧
    (∃ m, jsGet (.obj [("message", .str "boom"), ("code", .str "X")])
        "message" = .ok m ∧
      processLine parseFix ⟨[], [], false⟩ "data: e1".data =
        { routes := ([] : List (List (String × Json))),
          events := [.fatal m], done := true }) ∧
    (∃ liq, jsGet (.obj [("liquidityAvailable", .bool true)])
        "liquidityAvailable" = .ok liq ∧
      processLine parseFix ⟨[], [], false⟩ "data: res".data =
        { routes := ([] : List (List (String × Json))),
          events := [.result liq], done := true }) :=
  ⟨(stream_single_terminal parseFix).1 ["data: r1\ndata: res\n".data]
      (.routeFound [("sellAmount", .str "1"), ("id", .str "z1"),
        ("displayIndex", .num 1)])
      (by rw [show (runStream parseFix
          ["data: r1\ndata: res\n".data]).ls.events.dropLast =
          [.routeFound [("sellAmount", .str "1"), ("id", .str "z1"),
            ("displayIndex", .num 1)]] from rfl]
          exact List.mem_singleton.mpr rfl),
   (stream_single_terminal parseFix).2.1 ⟨[], [], false⟩ "data: e1".data
      (.obj [("error", .obj [("message", .str "boom"), ("code", .str "X")])])
      (.obj [("message", .str "boom"), ("code", .str "X")])
      rfl rfl rfl rfl rfl (by intro h; cases h) (by intro h; cases h),
   (stream_single_terminal parseFix).2.2 ⟨[], [], false⟩ "data: res".data
      (wrapResult (.str "z3") (.bool true))
      (.obj [("zid", .str "z3"),
        ("event", .obj [("type", .str "result"),
          ("data", .obj [("liquidityAvailable", .bool true)])])])
      (.obj [("type", .str "result"),
        ("data", .obj [("liquidityAvailable", .bool true)])])
      (.str "result") (.obj [("liquidityAvailable", .bool true)])
      rfl rfl rfl rfl rfl rfl rfl rfl rfl rfl
      (by intro h; cases h) (by intro h; cases h)⟩
